import Mathlib

/-!
Shallow embedding of the quint-whiteboard code generator (`spec.ts`) and the
store-layer layout/history helpers (`store.ts`), together with theorems
checking the specification's claims about them.

String values are modelled with Lean `String`; the JavaScript string
operations used by the source (`split`, `trim`, `startsWith`, `endsWith`,
`includes`, `toLowerCase`, `||` on strings, template concatenation) are
given structurally-recursive models below. Numeric coordinates in the
layout helpers are modelled with `Int`.
-/

namespace QuintWhiteboard

/-- The closed set of declaration kinds (`DeclKind` in the source). The
`def` kind is named `kdef` because `def` is a Lean keyword; the other
constructors carry a `k` prefix for uniformity. `kindStr` recovers the
source's string value of each kind. -/
inductive DeclKind where
  | kvar | kconst | kval | kdef | kaction | ktype | kassume
deriving DecidableEq, Repr

/-- Source string of a `DeclKind` (the TypeScript union is a union of
string literals). -/
def kindStr : DeclKind → String
  | .kvar => "var"
  | .kconst => "const"
  | .kval => "val"
  | .kdef => "def"
  | .kaction => "action"
  | .ktype => "type"
  | .kassume => "assume"

/-- The optional state machine role tag on a declaration. -/
inductive Role where
  | init | step | invariant
deriving DecidableEq, Repr

/-- `VisualDeclaration` from the source. `role` is optional; `pure` is an
optional boolean whose absence is falsy, so it is modelled as a `Bool`
defaulting to `false`. -/
structure VisualDeclaration where
  id : String
  kind : DeclKind
  name : String
  type : String
  params : String
  body : String
  role : Option Role := none
  pure : Bool := false
deriving DecidableEq, Repr

/-- JavaScript whitespace test (`\s` of the regexes and `trim`),
restricted to the ASCII whitespace characters that can occur here. -/
def jsWS (c : Char) : Bool :=
  c == ' ' || c == '\t' || c == '\n' || c == '\r' || c == '\x0b' || c == '\x0c'

/-- JavaScript `String.prototype.trimStart`. -/
def trimStart (s : String) : String :=
  ⟨s.data.dropWhile jsWS⟩

/-- JavaScript `String.prototype.trim` (both ends). -/
def jsTrim (s : String) : String :=
  ⟨((s.data.dropWhile jsWS).reverse.dropWhile jsWS).reverse⟩

/-- JavaScript `String.prototype.split` with a single-character
separator, on `List Char`: always returns at least one (possibly empty)
piece, and one extra piece per separator occurrence. -/
def splitCharAux (sep : Char) : List Char → List (List Char)
  | [] => [[]]
  | c :: rest =>
    if c == sep then [] :: splitCharAux sep rest
    else
      match splitCharAux sep rest with
      | h :: t => (c :: h) :: t
      | [] => [[c]]

/-- JavaScript `s.split(sep)` for a one-character separator. -/
def splitChar (sep : Char) (s : String) : List String :=
  (splitCharAux sep s.data).map (fun l => ⟨l⟩)

/-- JavaScript `s.startsWith(pre)`. -/
def startsW (pre s : String) : Bool :=
  pre.data.isPrefixOf s.data

/-- JavaScript `s.endsWith(suf)`. -/
def endsW (suf s : String) : Bool :=
  suf.data.isSuffixOf s.data

/-- JavaScript `s.includes('\n')` specialised to one character. -/
def containsChar (c : Char) (s : String) : Bool :=
  s.data.contains c

/-- JavaScript `s.toLowerCase()` (ASCII range, which is all the source
compares against). -/
def lowerStr (s : String) : String :=
  ⟨s.data.map Char.toLower⟩

/-- JavaScript `s || d` for strings: the empty string is falsy. -/
def strOr (s d : String) : String :=
  if s = "" then d else s

/-- Does the keyword `w` occur at the start of `rest` followed by a
whitespace character? (One alternative of the regex
`^\s*(nondet|val)\s` after the leading whitespace is dropped.) -/
def kwAt (w : List Char) (rest : List Char) : Bool :=
  w.isPrefixOf rest &&
    (match rest.drop w.length with
     | c :: _ => jsWS c
     | [] => false)

/-- Test of the source regex `/^\s*(nondet|val)\s/` on one line. -/
def isBindingLine (l : String) : Bool :=
  let rest := l.data.dropWhile jsWS
  kwAt "nondet".data rest || kwAt "val".data rest

/-- `indentLines` from the source: prefix every line with `indent`. -/
def indentLines (text : String) (indent : String) : String :=
  String.intercalate "\n" ((splitChar '\n' text).map (fun l => indent ++ l))

/-- `declToQuint` from the source: render one declaration to its Quint
fragment. Braces in the rendered text are written `\x7b`/`\x7d`. -/
def declToQuint (d : VisualDeclaration) : String :=
  let name := strOr d.name "_unnamed"
  match d.kind with
  | .kvar | .kconst =>
      "  " ++ kindStr d.kind ++ " " ++ name ++ ": " ++ strOr d.type "int"
  | .kval =>
      let pureVal := if d.pure then "pure " else ""
      "  " ++ pureVal ++ "val " ++ name ++
        (if d.type = "" then "" else ": " ++ d.type) ++ " = " ++ strOr d.body "???"
  | .kdef | .kaction =>
      let pureDef := if d.pure && d.kind == .kdef then "pure " else ""
      let params := if d.params = "" then "" else "(" ++ d.params ++ ")"
      let ret := if d.type = "" then "" else ": " ++ d.type
      let body := strOr d.body "???"
      if containsChar '\n' body then
        let trimmed := trimStart body
        let hasBindings := (splitChar '\n' body).any isBindingLine
        let alreadyWrapped := startsW "all " trimmed || startsW "any " trimmed
        if d.kind == .kaction && !hasBindings && !alreadyWrapped then
          let clauses :=
            String.intercalate "\n"
              ((((splitChar '\n' body).map jsTrim).filter (fun l => l ≠ "")).map
                (fun l => "    " ++ (if endsW "," l then l else l ++ ",")))
          "  action " ++ name ++ params ++ ret ++ " = all \x7b\n" ++ clauses ++ "\n  \x7d"
        else
          "  " ++ pureDef ++ kindStr d.kind ++ " " ++ name ++ params ++ ret ++
            " = \x7b\n" ++ indentLines body "    " ++ "\n  \x7d"
      else
        "  " ++ pureDef ++ kindStr d.kind ++ " " ++ name ++ params ++ ret ++ " = " ++ body
  | .ktype =>
      "  type " ++ name ++ " = " ++ strOr d.body "int"
  | .kassume =>
      "  assume " ++ name ++ " = " ++ strOr d.body "true"

/-- `KIND_ORDER` from the source. -/
def kindOrder : DeclKind → Nat
  | .ktype => 0
  | .kconst => 1
  | .kvar => 2
  | .kval => 3
  | .kdef => 4
  | .kaction => 5
  | .kassume => 6

/-- Stable insertion of a declaration into a list already sorted by
`kindOrder`: the new element goes before the first element whose kind
order is not strictly smaller, so elements of equal kind keep their
relative order. -/
def insertByKind (a : VisualDeclaration) : List VisualDeclaration → List VisualDeclaration
  | [] => [a]
  | b :: t =>
    if kindOrder b.kind < kindOrder a.kind then b :: insertByKind a t
    else a :: b :: t

/-- Model of `[...decls].sort((a, b) => KIND_ORDER[a.kind] - KIND_ORDER[b.kind])`:
a stable sort by `kindOrder` (JavaScript `Array.prototype.sort` is
stable). Stability and sortedness, proved below, determine the result
uniquely, so any stable sort implementation agrees with this one. -/
def sortDecls (decls : List VisualDeclaration) : List VisualDeclaration :=
  decls.foldr insertByKind []

/-- Default declaration used to model the JavaScript access
`initActions[0]` / `stepActions[0]`, which the source only performs when
the list has exactly one element. -/
def dfltDecl : VisualDeclaration :=
  { id := "", kind := .kvar, name := "", type := "", params := "", body := "" }

/-- `parseParamNames` from the source: `params.split(',')`, text before
the first `:` of each piece, trimmed, empty pieces dropped. -/
def parseParamNames (params : String) : List String :=
  if jsTrim params = "" then []
  else
    ((splitChar ',' params).map
      (fun p => jsTrim ⟨p.data.takeWhile (fun c => !(c == ':'))⟩)).filter
      (fun s => s ≠ "")

/-- One step of `collectUniqueParams`: process one comma-piece of a
params string against the insertion-ordered `seen` association list
(JavaScript `Map` preserves insertion order; only new keys are added). -/
def collectStep (seen : List (String × String)) (part : String) : List (String × String) :=
  let segs := (splitChar ':' part).map jsTrim
  let name := segs.headD ""
  let ty := segs.getD 1 ""
  if name ≠ "" && !(seen.any (fun q => q.1 == name)) then
    seen ++ [(name, strOr ty "int")]
  else seen

/-- One outer iteration of `collectUniqueParams`: process one action's
params string (skipped when its trimmed params are empty). -/
def collectAction (seen : List (String × String)) (a : VisualDeclaration) :
    List (String × String) :=
  if jsTrim a.params = "" then seen
  else (splitChar ',' a.params).foldl collectStep seen

/-- `collectUniqueParams` from the source: unique `(name, type)` pairs
across the actions' params strings, first occurrence winning, missing
type defaulting to `"int"`. -/
def collectUniqueParams (actions : List VisualDeclaration) : List (String × String) :=
  actions.foldl collectAction []

/-- `nondetRange` from the source. -/
def nondetRange (type : String) : String :=
  let t := lowerStr type
  if t = "bool" then "Set(true, false)"
  else if t = "str" then "Set(\"a\", \"b\", \"c\")"
  else "1.to(100)"

/-- The init-role actions of the collection (`initActions` in
`generateCombinedActions`). -/
def initActions (decls : List VisualDeclaration) : List VisualDeclaration :=
  decls.filter (fun d => decide (d.role = some .init ∧ d.kind = .kaction))

/-- The step-role actions of the collection (`stepActions`). -/
def stepActions (decls : List VisualDeclaration) : List VisualDeclaration :=
  decls.filter (fun d => decide (d.role = some .step ∧ d.kind = .kaction))

/-- `decls.some((d) => d.name === 'init' && d.kind === 'action')`. -/
def hasExplicitInit (decls : List VisualDeclaration) : Bool :=
  decls.any (fun d => decide (d.name = "init" ∧ d.kind = .kaction))

/-- `decls.some((d) => d.name === 'step' && d.kind === 'action')`. -/
def hasExplicitStep (decls : List VisualDeclaration) : Bool :=
  decls.any (fun d => decide (d.name = "step" ∧ d.kind = .kaction))

/-- The `needsInit` condition of `generateCombinedActions`. -/
def needsInit (decls : List VisualDeclaration) : Bool :=
  !hasExplicitInit decls &&
    ((initActions decls).length > 1 ||
      ((initActions decls).length == 1 &&
        !(((initActions decls).headD dfltDecl).name == "init")))

/-- The `needsStep` condition of `generateCombinedActions`. -/
def needsStep (decls : List VisualDeclaration) : Bool :=
  !hasExplicitStep decls &&
    ((stepActions decls).length > 1 ||
      ((stepActions decls).length == 1 &&
        !(((stepActions decls).headD dfltDecl).name == "step")))

/-- The combined-`init` fragment pushed by `generateCombinedActions`
(empty list when not needed). -/
def initExtra (decls : List VisualDeclaration) : List String :=
  if needsInit decls then
    let calls := String.intercalate ",\n" ((initActions decls).map (fun a => "    " ++ a.name))
    if (initActions decls).length == 1 then
      ["  action init = " ++ ((initActions decls).headD dfltDecl).name]
    else
      ["  action init = all \x7b\n" ++ calls ++ ",\n  \x7d"]
  else []

/-- The combined-`step` fragment pushed by `generateCombinedActions`. -/
def stepExtra (decls : List VisualDeclaration) : List String :=
  if needsStep decls then
    let params := collectUniqueParams (stepActions decls)
    let calls :=
      String.intercalate ",\n"
        ((stepActions decls).map (fun a =>
          let args := String.intercalate ", " (parseParamNames a.params)
          "    " ++ a.name ++ (if args = "" then "" else "(" ++ args ++ ")")))
    if params.length > 0 then
      let bindings :=
        String.intercalate "\n"
          (params.map (fun p => "    nondet " ++ p.1 ++ " = " ++ nondetRange p.2 ++ ".oneOf()"))
      ["  action step = \x7b\n" ++ bindings ++ "\n    any \x7b\n" ++ calls ++ ",\n    \x7d\n  \x7d"]
    else
      ["  action step = any \x7b\n" ++ calls ++ ",\n  \x7d"]
  else []

/-- The invariant filter of the smoke-test synthesis: invariant role,
non-empty name, kind `val` or `def`. -/
def isInvariantDecl (d : VisualDeclaration) : Bool :=
  decide (d.role = some .invariant ∧ d.name ≠ "" ∧ (d.kind = .kval ∨ d.kind = .kdef))

/-- The `hasInit` condition of the smoke-test synthesis. -/
def hasInitB (decls : List VisualDeclaration) : Bool :=
  (initActions decls).length > 0 || hasExplicitInit decls

/-- The `hasStep` condition of the smoke-test synthesis. -/
def hasStepB (decls : List VisualDeclaration) : Bool :=
  (stepActions decls).length > 0 || hasExplicitStep decls

/-- The test-run fragment pushed by `generateCombinedActions`. -/
def runExtra (decls : List VisualDeclaration) : List String :=
  if hasInitB decls && hasStepB decls then
    let invariants := decls.filter isInvariantDecl
    if invariants.length > 0 then
      ["  run invariantTest = init.then(20.reps(_ => step.expect(" ++
        String.intercalate " and " (invariants.map (·.name)) ++ ")))"]
    else
      ["  run simulationTest = init.then(20.reps(_ => step))"]
  else []

/-- `generateCombinedActions` from the source: the extra fragments are
pushed in the order init, step, run. -/
def generateCombinedActions (decls : List VisualDeclaration) : List String :=
  initExtra decls ++ stepExtra decls ++ runExtra decls

/-- `declsToQuint` from the source: the module envelope around the
sorted per-declaration fragments followed by the synthesized ones. -/
def declsToQuint (moduleName : String) (decls : List VisualDeclaration) : String :=
  if decls.isEmpty then "module " ++ strOr moduleName "Unnamed" ++ " \x7b\n\x7d"
  else
    let sorted := sortDecls decls
    let lines := sorted.map declToQuint
    let combined := generateCombinedActions decls
    let body := String.intercalate "\n\n" (lines ++ combined)
    "module " ++ strOr moduleName "Unnamed" ++ " \x7b\n" ++ body ++ "\n\x7d"

/-- The kind-priority comparison underlying the sort. -/
def kindLE (a b : VisualDeclaration) : Prop :=
  kindOrder a.kind ≤ kindOrder b.kind

lemma mem_insertByKind {x a : VisualDeclaration} :
    ∀ {t : List VisualDeclaration}, x ∈ insertByKind a t ↔ x = a ∨ x ∈ t := by
  intro t
  induction t with
  | nil => simp [insertByKind]
  | cons b t ih =>
    by_cases h : kindOrder b.kind < kindOrder a.kind
    · simp only [insertByKind, if_pos h, List.mem_cons, ih]
      tauto
    · simp [insertByKind, if_neg h]

lemma insertByKind_perm (a : VisualDeclaration) :
    ∀ (t : List VisualDeclaration), List.Perm (insertByKind a t) (a :: t) := by
  intro t
  induction t with
  | nil => simp [insertByKind]
  | cons b t ih =>
    by_cases h : kindOrder b.kind < kindOrder a.kind
    · simp only [insertByKind, if_pos h]
      exact (ih.cons b).trans (List.Perm.swap a b t)
    · simp [insertByKind, if_neg h]

lemma sortDecls_perm (l : List VisualDeclaration) : List.Perm (sortDecls l) l := by
  induction l with
  | nil => simp [sortDecls]
  | cons d t ih =>
    simpa [sortDecls] using (insertByKind_perm d (sortDecls t)).trans (ih.cons d)

lemma pairwise_insertByKind {a : VisualDeclaration} :
    ∀ {t : List VisualDeclaration}, t.Pairwise kindLE →
      (insertByKind a t).Pairwise kindLE := by
  intro t
  induction t with
  | nil => simp [insertByKind, kindLE]
  | cons b t ih =>
    intro h
    rw [List.pairwise_cons] at h
    by_cases hlt : kindOrder b.kind < kindOrder a.kind
    · simp only [insertByKind, if_pos hlt]
      rw [List.pairwise_cons]
      refine ⟨?_, ih h.2⟩
      intro x hx
      rcases mem_insertByKind.mp hx with rfl | hx
      · exact Nat.le_of_lt hlt
      · exact h.1 x hx
    · simp only [insertByKind, if_neg hlt]
      rw [List.pairwise_cons]
      refine ⟨?_, List.pairwise_cons.mpr h⟩
      intro x hx
      rcases List.mem_cons.mp hx with rfl | hx
      · exact Nat.le_of_not_lt hlt
      · exact Nat.le_trans (Nat.le_of_not_lt hlt) (h.1 x hx)

/-- The sort result is ordered by the fixed kind priority. -/
lemma sortDecls_pairwise (l : List VisualDeclaration) :
    (sortDecls l).Pairwise kindLE := by
  induction l with
  | nil => simp [sortDecls]
  | cons d t ih => exact pairwise_insertByKind ih

lemma filter_insertByKind (a : VisualDeclaration) (k : DeclKind) :
    ∀ (t : List VisualDeclaration),
      (insertByKind a t).filter (fun d => decide (d.kind = k)) =
        if a.kind = k then a :: t.filter (fun d => decide (d.kind = k))
        else t.filter (fun d => decide (d.kind = k)) := by
  intro t
  induction t with
  | nil => simp [insertByKind, List.filter_cons]
  | cons b t ih =>
    by_cases hlt : kindOrder b.kind < kindOrder a.kind
    · have hbk : ¬(a.kind = k ∧ b.kind = k) := by
        rintro ⟨rfl, hb⟩
        rw [hb] at hlt
        exact Nat.lt_irrefl _ hlt
      simp only [insertByKind, if_pos hlt, List.filter_cons, ih]
      by_cases ha : a.kind = k
      · have hb : ¬ b.kind = k := fun hb => hbk ⟨ha, hb⟩
        simp [ha, hb]
      · simp [ha]
    · simp only [insertByKind, if_neg hlt, List.filter_cons]
      by_cases ha : a.kind = k <;> simp [ha]

/-- Stability of the sort: for every kind, the sorted list restricts to
exactly the input's subsequence of that kind. -/
lemma sortDecls_filter (l : List VisualDeclaration) (k : DeclKind) :
    (sortDecls l).filter (fun d => decide (d.kind = k)) =
      l.filter (fun d => decide (d.kind = k)) := by
  induction l with
  | nil => simp [sortDecls]
  | cons d t ih =>
    show (insertByKind d (sortDecls t)).filter _ = _
    rw [filter_insertByKind, List.filter_cons]
    by_cases hd : d.kind = k <;> simp [hd, ih]

lemma filter_kind_nil {t : List VisualDeclaration} {n : Nat}
    (h : ∀ x ∈ t, n ≤ kindOrder x.kind) {k : DeclKind}
    (hk : kindOrder k < n) :
    t.filter (fun d => decide (d.kind = k)) = [] := by
  rw [List.filter_eq_nil_iff]
  intro x hx
  simp only [decide_eq_true_eq]
  intro he
  have := h x hx
  rw [he] at this
  omega

/-- A list sorted by kind priority is the concatenation of its kind
classes in priority order. -/
lemma sorted_eq_flatten :
    ∀ (l : List VisualDeclaration), l.Pairwise kindLE →
      l = l.filter (fun d => decide (d.kind = DeclKind.ktype)) ++
          l.filter (fun d => decide (d.kind = DeclKind.kconst)) ++
          l.filter (fun d => decide (d.kind = DeclKind.kvar)) ++
          l.filter (fun d => decide (d.kind = DeclKind.kval)) ++
          l.filter (fun d => decide (d.kind = DeclKind.kdef)) ++
          l.filter (fun d => decide (d.kind = DeclKind.kaction)) ++
          l.filter (fun d => decide (d.kind = DeclKind.kassume)) := by
  intro l
  induction l with
  | nil => simp
  | cons d t ih =>
    intro h
    rw [List.pairwise_cons] at h
    have hnil : ∀ k : DeclKind, kindOrder k < kindOrder d.kind →
        t.filter (fun x => decide (x.kind = k)) = [] :=
      fun k hk => filter_kind_nil (fun x hx => h.1 x hx) hk
    have ih' := ih h.2
    cases hdk : d.kind
    case ktype =>
      simp only [List.filter_cons, hdk]
      simp only [decide_eq_true_eq]
      conv_lhs => rw [ih']
      simp
    case kconst =>
      have e0 := hnil .ktype (by rw [hdk]; decide)
      simp only [List.filter_cons, hdk]
      simp only [decide_eq_true_eq]
      conv_lhs => rw [ih']
      simp [e0]
    case kvar =>
      have e0 := hnil .ktype (by rw [hdk]; decide)
      have e1 := hnil .kconst (by rw [hdk]; decide)
      simp only [List.filter_cons, hdk]
      simp only [decide_eq_true_eq]
      conv_lhs => rw [ih']
      simp [e0, e1]
    case kval =>
      have e0 := hnil .ktype (by rw [hdk]; decide)
      have e1 := hnil .kconst (by rw [hdk]; decide)
      have e2 := hnil .kvar (by rw [hdk]; decide)
      simp only [List.filter_cons, hdk]
      simp only [decide_eq_true_eq]
      conv_lhs => rw [ih']
      simp [e0, e1, e2]
    case kdef =>
      have e0 := hnil .ktype (by rw [hdk]; decide)
      have e1 := hnil .kconst (by rw [hdk]; decide)
      have e2 := hnil .kvar (by rw [hdk]; decide)
      have e3 := hnil .kval (by rw [hdk]; decide)
      simp only [List.filter_cons, hdk]
      simp only [decide_eq_true_eq]
      conv_lhs => rw [ih']
      simp [e0, e1, e2, e3]
    case kaction =>
      have e0 := hnil .ktype (by rw [hdk]; decide)
      have e1 := hnil .kconst (by rw [hdk]; decide)
      have e2 := hnil .kvar (by rw [hdk]; decide)
      have e3 := hnil .kval (by rw [hdk]; decide)
      have e4 := hnil .kdef (by rw [hdk]; decide)
      simp only [List.filter_cons, hdk]
      simp only [decide_eq_true_eq]
      conv_lhs => rw [ih']
      simp [e0, e1, e2, e3, e4]
    case kassume =>
      have e0 := hnil .ktype (by rw [hdk]; decide)
      have e1 := hnil .kconst (by rw [hdk]; decide)
      have e2 := hnil .kvar (by rw [hdk]; decide)
      have e3 := hnil .kval (by rw [hdk]; decide)
      have e4 := hnil .kdef (by rw [hdk]; decide)
      have e5 := hnil .kaction (by rw [hdk]; decide)
      simp only [List.filter_cons, hdk]
      simp only [decide_eq_true_eq]
      conv_lhs => rw [ih']
      simp [e0, e1, e2, e3, e4, e5]

/-- The sorted list is fully determined by the input's kind classes. -/
lemma sortDecls_eq_flatten (l : List VisualDeclaration) :
    sortDecls l =
      l.filter (fun d => decide (d.kind = DeclKind.ktype)) ++
      l.filter (fun d => decide (d.kind = DeclKind.kconst)) ++
      l.filter (fun d => decide (d.kind = DeclKind.kvar)) ++
      l.filter (fun d => decide (d.kind = DeclKind.kval)) ++
      l.filter (fun d => decide (d.kind = DeclKind.kdef)) ++
      l.filter (fun d => decide (d.kind = DeclKind.kaction)) ++
      l.filter (fun d => decide (d.kind = DeclKind.kassume)) := by
  have h := sorted_eq_flatten (sortDecls l) (sortDecls_pairwise l)
  simpa [sortDecls_filter] using h

lemma initActions_eq (l : List VisualDeclaration) :
    initActions l =
      (l.filter (fun d => decide (d.kind = DeclKind.kaction))).filter
        (fun d => decide (d.role = some Role.init)) := by
  induction l with
  | nil => rfl
  | cons d t ih =>
    by_cases h1 : d.kind = DeclKind.kaction <;>
      by_cases h2 : d.role = some Role.init <;>
      simp [initActions, List.filter_cons, h1, h2, ih]

lemma stepActions_eq (l : List VisualDeclaration) :
    stepActions l =
      (l.filter (fun d => decide (d.kind = DeclKind.kaction))).filter
        (fun d => decide (d.role = some Role.step)) := by
  induction l with
  | nil => rfl
  | cons d t ih =>
    by_cases h1 : d.kind = DeclKind.kaction <;>
      by_cases h2 : d.role = some Role.step <;>
      simp [stepActions, List.filter_cons, h1, h2, ih]

lemma hasExplicitInit_eq (l : List VisualDeclaration) :
    hasExplicitInit l =
      (l.filter (fun d => decide (d.kind = DeclKind.kaction))).any
        (fun d => decide (d.name = "init")) := by
  induction l with
  | nil => rfl
  | cons d t ih =>
    by_cases h1 : d.kind = DeclKind.kaction <;>
      by_cases h2 : d.name = "init" <;>
      simp [hasExplicitInit, List.filter_cons, h1, h2] <;>
      simpa [hasExplicitInit] using ih

lemma hasExplicitStep_eq (l : List VisualDeclaration) :
    hasExplicitStep l =
      (l.filter (fun d => decide (d.kind = DeclKind.kaction))).any
        (fun d => decide (d.name = "step")) := by
  induction l with
  | nil => rfl
  | cons d t ih =>
    by_cases h1 : d.kind = DeclKind.kaction <;>
      by_cases h2 : d.name = "step" <;>
      simp [hasExplicitStep, List.filter_cons, h1, h2] <;>
      simpa [hasExplicitStep] using ih

lemma eq_nil_of_kind_filters {l : List VisualDeclaration}
    (h : ∀ k : DeclKind, l.filter (fun d => decide (d.kind = k)) = []) :
    l = [] := by
  cases l with
  | nil => rfl
  | cons d t =>
    have hd := h d.kind
    simp [List.filter_cons] at hd

/-- C1: `declsToQuint` is total and always yields the module envelope,
with default module identifier `Unnamed` when the name is empty; an
empty collection yields an empty body with nothing synthesized; a
declaration with an empty name renders exactly as if its name were the
placeholder `_unnamed`. -/
theorem C1_envelope_total_and_placeholder :
    (∀ name : String,
      declsToQuint name [] =
        "module " ++ (if name = "" then "Unnamed" else name) ++ " \x7b\n\x7d")
    ∧ (∀ (name : String) (decls : List VisualDeclaration), decls ≠ [] →
      ∃ body : String,
        declsToQuint name decls =
          "module " ++ (if name = "" then "Unnamed" else name) ++ " \x7b\n" ++
            body ++ "\n\x7d")
    ∧ (∀ d : VisualDeclaration, d.name = "" →
      declToQuint d = declToQuint { d with name := "_unnamed" }) := by
  refine ⟨?_, ?_, ?_⟩
  · intro name
    simp [declsToQuint, strOr]
  · intro name decls h
    have he : decls.isEmpty = false := by
      simpa [List.isEmpty_iff] using h
    refine ⟨String.intercalate "\n\n"
      ((sortDecls decls).map declToQuint ++ generateCombinedActions decls), ?_⟩
    simp [declsToQuint, he, strOr]
  · intro d h
    obtain ⟨i, k, nm, ty, pa, bo, ro, pu⟩ := d
    simp only at h
    subst h
    cases k <;> rfl

/-- C1 witness: the envelope and placeholder facts at concrete inputs. -/
theorem C1_envelope_total_and_placeholder_witness :
    (∃ body : String,
      declsToQuint "M"
        [{ id := "1", kind := .kval, name := "a", type := "", params := "", body := "" }] =
        "module " ++ (if ("M" : String) = "" then "Unnamed" else "M") ++ " \x7b\n" ++
          body ++ "\n\x7d")
    ∧ (declToQuint { id := "1", kind := .kval, name := "", type := "", params := "", body := "" } =
        declToQuint { id := "1", kind := .kval, name := "_unnamed", type := "", params := "", body := "" }) :=
  ⟨C1_envelope_total_and_placeholder.2.1 "M" _ (by decide),
   C1_envelope_total_and_placeholder.2.2 _ rfl⟩

/-- C2: the per-declaration fragments of `declsToQuint` are the
renderings of `sortDecls decls`, which is ordered by the fixed kind
priority (type, const, var, val, def, action, assume) and restricts, on
every kind, to exactly the input's subsequence of that kind (stable
sort). -/
theorem C2_kind_priority_order_stable :
    (∀ decls : List VisualDeclaration,
      (sortDecls decls).Pairwise (fun a b => kindOrder a.kind ≤ kindOrder b.kind))
    ∧ (∀ (decls : List VisualDeclaration) (k : DeclKind),
      (sortDecls decls).filter (fun d => decide (d.kind = k)) =
        decls.filter (fun d => decide (d.kind = k)))
    ∧ (∀ (name : String) (decls : List VisualDeclaration), decls ≠ [] →
      declsToQuint name decls =
        "module " ++ strOr name "Unnamed" ++ " \x7b\n" ++
          String.intercalate "\n\n"
            ((sortDecls decls).map declToQuint ++ generateCombinedActions decls) ++
          "\n\x7d") := by
  refine ⟨fun decls => sortDecls_pairwise decls, fun decls k => sortDecls_filter decls k, ?_⟩
  intro name decls h
  have he : decls.isEmpty = false := by
    simpa [List.isEmpty_iff] using h
  simp [declsToQuint, he]

/-- C2 witness: stability and the fragment layout at a concrete input. -/
theorem C2_kind_priority_order_stable_witness :
    declsToQuint "M"
      [{ id := "1", kind := .kval, name := "a", type := "", params := "", body := "" }] =
      "module " ++ strOr "M" "Unnamed" ++ " \x7b\n" ++
        String.intercalate "\n\n"
          ((sortDecls
            [{ id := "1", kind := .kval, name := "a", type := "", params := "", body := "" }]).map
              declToQuint ++
            generateCombinedActions
              [{ id := "1", kind := .kval, name := "a", type := "", params := "", body := "" }]) ++
        "\n\x7d" :=
  C2_kind_priority_order_stable.2.2 "M" _ (by decide)

/-- Two value declarations used to exhibit order sensitivity. -/
def valA : VisualDeclaration :=
  { id := "1", kind := .kval, name := "a", type := "", params := "", body := "" }

/-- Second value declaration for the order-sensitivity example. -/
def valB : VisualDeclaration :=
  { id := "2", kind := .kval, name := "b", type := "", params := "", body := "" }

/-- C3 counterexample: the two collections hold the same declarations
(they are permutations of each other) and differ only in insertion
order, yet `declsToQuint` renders them differently, because the stable
sort keeps the relative order of the two `val` declarations. -/
theorem C3_counterexample :
    List.Perm [valA, valB] [valB, valA] ∧
    declsToQuint "M" [valA, valB] ≠ declsToQuint "M" [valB, valA] := by
  constructor
  · exact List.Perm.swap valB valA []
  · decide

/-- C3 amended: two collections that agree, kind by kind, on the
relative order of their same-kind declarations, and agree on the
relative order of their invariant-role `val`/`def` declarations,
produce identical output; the fragment order always follows the fixed
kind priority. (The original claim fails for permutations that swap two
declarations of the same kind; the sort is stable, so per-kind order —
and, for the synthesized run, the order of invariant declarations —
must also agree.) -/
theorem C3_amended_order_stable_by_kind :
    ∀ (name : String) (l1 l2 : List VisualDeclaration),
      (∀ k : DeclKind,
        l1.filter (fun d => decide (d.kind = k)) =
          l2.filter (fun d => decide (d.kind = k))) →
      l1.filter isInvariantDecl = l2.filter isInvariantDecl →
      declsToQuint name l1 = declsToQuint name l2 := by
  intro name l1 l2 hk hinv
  have hsort : sortDecls l1 = sortDecls l2 := by
    rw [sortDecls_eq_flatten, sortDecls_eq_flatten]
    simp only [hk]
  have hact := hk DeclKind.kaction
  have hIA : initActions l1 = initActions l2 := by
    rw [initActions_eq, initActions_eq, hact]
  have hSA : stepActions l1 = stepActions l2 := by
    rw [stepActions_eq, stepActions_eq, hact]
  have hEI : hasExplicitInit l1 = hasExplicitInit l2 := by
    rw [hasExplicitInit_eq, hasExplicitInit_eq, hact]
  have hES : hasExplicitStep l1 = hasExplicitStep l2 := by
    rw [hasExplicitStep_eq, hasExplicitStep_eq, hact]
  have hcomb : generateCombinedActions l1 = generateCombinedActions l2 := by
    simp only [generateCombinedActions, initExtra, stepExtra, runExtra,
      needsInit, needsStep, hasInitB, hasStepB, hIA, hSA, hEI, hES, hinv]
  have hnil : l1 = [] ↔ l2 = [] := by
    constructor
    · intro h
      refine eq_nil_of_kind_filters (fun k => ?_)
      rw [← hk k, h]
      rfl
    · intro h
      refine eq_nil_of_kind_filters (fun k => ?_)
      rw [hk k, h]
      rfl
  have hemp : l1.isEmpty = l2.isEmpty := by
    rcases l1 with _ | ⟨d, t⟩
    · rcases hnil.mp rfl
      rfl
    · rcases l2 with _ | ⟨e, u⟩
      · exact absurd (hnil.mpr rfl) (by simp)
      · rfl
  simp only [declsToQuint, hemp, hsort, hcomb]

/-- C3 amended witness: identical collections up to reordering across
distinct kinds render identically. -/
theorem C3_amended_order_stable_by_kind_witness :
    declsToQuint "M"
      [{ id := "1", kind := .kvar, name := "x", type := "", params := "", body := "" },
       { id := "2", kind := .ktype, name := "T", type := "", params := "", body := "" }] =
    declsToQuint "M"
      [{ id := "2", kind := .ktype, name := "T", type := "", params := "", body := "" },
       { id := "1", kind := .kvar, name := "x", type := "", params := "", body := "" }] :=
  C3_amended_order_stable_by_kind "M" _ _ (by intro k; cases k <;> rfl) (by decide)

lemma hasExplicitInit_true_iff (decls : List VisualDeclaration) :
    hasExplicitInit decls = true ↔
      ∃ d ∈ decls, d.name = "init" ∧ d.kind = DeclKind.kaction := by
  simp [hasExplicitInit, List.any_eq_true]

lemma hasExplicitInit_false_iff (decls : List VisualDeclaration) :
    hasExplicitInit decls = false ↔
      ∀ d ∈ decls, ¬(d.name = "init" ∧ d.kind = DeclKind.kaction) := by
  rw [← Bool.not_eq_true, hasExplicitInit_true_iff]
  push_neg
  simp

lemma hasExplicitStep_true_iff (decls : List VisualDeclaration) :
    hasExplicitStep decls = true ↔
      ∃ d ∈ decls, d.name = "step" ∧ d.kind = DeclKind.kaction := by
  simp [hasExplicitStep, List.any_eq_true]

lemma needsInit_true_iff (decls : List VisualDeclaration) :
    needsInit decls = true ↔
      hasExplicitInit decls = false ∧
        ((∃ a, initActions decls = [a] ∧ a.name ≠ "init") ∨
          1 < (initActions decls).length) := by
  simp only [needsInit, Bool.and_eq_true, Bool.not_eq_true', Bool.or_eq_true,
    decide_eq_true_eq, beq_iff_eq]
  refine and_congr_right (fun _ => ?_)
  constructor
  · rintro (hgt | ⟨hlen, hname⟩)
    · exact Or.inr hgt
    · obtain ⟨a, ha⟩ := List.length_eq_one.mp hlen
      refine Or.inl ⟨a, ha, ?_⟩
      simpa [ha] using hname
  · rintro (⟨a, ha, hname⟩ | hgt)
    · refine Or.inr ⟨by simp [ha], ?_⟩
      simpa [ha] using hname
    · exact Or.inl hgt

/-- C5: the initializer is synthesized exactly when no action is named
`init` and either a single init-role action has a different name (a
forwarding initializer) or several init-role actions exist (an all-of
block); with an explicit `init` action nothing is synthesized and the
explicit one renders exactly once. -/
theorem C5_init_synthesis :
    ∀ decls : List VisualDeclaration,
      (initExtra decls ≠ [] ↔
        (∀ d ∈ decls, ¬(d.name = "init" ∧ d.kind = DeclKind.kaction)) ∧
          ((∃ a, initActions decls = [a] ∧ a.name ≠ "init") ∨
            1 < (initActions decls).length))
      ∧ (∀ a : VisualDeclaration,
          (∀ d ∈ decls, ¬(d.name = "init" ∧ d.kind = DeclKind.kaction)) →
          initActions decls = [a] → a.name ≠ "init" →
          initExtra decls = ["  action init = " ++ a.name])
      ∧ ((∀ d ∈ decls, ¬(d.name = "init" ∧ d.kind = DeclKind.kaction)) →
          1 < (initActions decls).length →
          initExtra decls =
            ["  action init = all \x7b\n" ++
              String.intercalate ",\n"
                ((initActions decls).map (fun a => "    " ++ a.name)) ++
              ",\n  \x7d"])
      ∧ ((∃ d ∈ decls, d.name = "init" ∧ d.kind = DeclKind.kaction) →
          initExtra decls = [])
      ∧ ((decls.filter (fun d => decide (d.name = "init" ∧ d.kind = DeclKind.kaction))).length = 1 →
          initExtra decls = [] ∧
          ((sortDecls decls).filter
            (fun d => decide (d.name = "init" ∧ d.kind = DeclKind.kaction))).length = 1) := by
  intro decls
  refine ⟨?_, ?_, ?_, ?_, ?_⟩
  · constructor
    · intro h
      have hn : needsInit decls = true := by
        by_contra hn
        rw [Bool.not_eq_true] at hn
        simp [initExtra, hn] at h
      rw [needsInit_true_iff] at hn
      exact ⟨(hasExplicitInit_false_iff decls).mp hn.1, hn.2⟩
    · rintro ⟨hno, hform⟩
      have hn : needsInit decls = true :=
        (needsInit_true_iff decls).mpr ⟨(hasExplicitInit_false_iff decls).mpr hno, hform⟩
      rcases hform with ⟨a, ha, _⟩ | hgt
      · simp [initExtra, hn, ha]
      · have h1 : ((initActions decls).length == 1) = false := by
          simp only [beq_eq_false_iff_ne]
          omega
        simp [initExtra, hn, h1]
  · intro a hno ha hname
    have hn : needsInit decls = true :=
      (needsInit_true_iff decls).mpr
        ⟨(hasExplicitInit_false_iff decls).mpr hno, Or.inl ⟨a, ha, hname⟩⟩
    simp [initExtra, hn, ha]
  · intro hno hgt
    have hn : needsInit decls = true :=
      (needsInit_true_iff decls).mpr
        ⟨(hasExplicitInit_false_iff decls).mpr hno, Or.inr hgt⟩
    have h1 : ((initActions decls).length == 1) = false := by
      simp only [beq_eq_false_iff_ne]
      omega
    simp [initExtra, hn, h1]
  · intro hex
    have he : hasExplicitInit decls = true := (hasExplicitInit_true_iff decls).mpr hex
    have hn : needsInit decls = false := by
      simp [needsInit, he]
    simp [initExtra, hn]
  · intro hcount
    have hmem : ∃ d ∈ decls, d.name = "init" ∧ d.kind = DeclKind.kaction := by
      rcases hl : decls.filter (fun d => decide (d.name = "init" ∧ d.kind = DeclKind.kaction)) with _ | ⟨d, t⟩
      · rw [hl] at hcount
        simp at hcount
      · have hd : d ∈ decls ∧ (d.name = "init" ∧ d.kind = DeclKind.kaction) := by
          have : d ∈ decls.filter (fun d => decide (d.name = "init" ∧ d.kind = DeclKind.kaction)) := by
            rw [hl]
            exact List.mem_cons_self d t
          simpa [List.mem_filter] using this
        exact ⟨d, hd.1, hd.2⟩
    have he : hasExplicitInit decls = true := (hasExplicitInit_true_iff decls).mpr hmem
    have hn : needsInit decls = false := by
      simp [needsInit, he]
    refine ⟨by simp [initExtra, hn], ?_⟩
    have hp := (sortDecls_perm decls).filter
      (fun d => decide (d.name = "init" ∧ d.kind = DeclKind.kaction))
    rw [hp.length_eq, hcount]

/-- A single init-role action named `boot` (not `init`). -/
def bootDecl : VisualDeclaration :=
  { id := "1", kind := .kaction, name := "boot", type := "", params := "",
    body := "", role := some .init }

/-- C5 witness: a single init-role action named `boot` produces the
forwarding initializer, and a single explicit `init` action produces no
synthesized initializer while rendering once. -/
theorem C5_init_synthesis_witness :
    initExtra [bootDecl] = ["  action init = boot"]
    ∧ (initExtra
        [{ id := "1", kind := .kaction, name := "init", type := "", params := "",
           body := "", role := some .init }] = [] ∧
      ((sortDecls
        [{ id := "1", kind := .kaction, name := "init", type := "", params := "",
           body := "", role := some .init }]).filter
        (fun d => decide (d.name = "init" ∧ d.kind = DeclKind.kaction))).length = 1) :=
  ⟨by exact (C5_init_synthesis [bootDecl]).2.1 bootDecl (by decide) (by decide) (by decide),
   (C5_init_synthesis _).2.2.2.2 (by decide)⟩

lemma hasInitB_true_iff (decls : List VisualDeclaration) :
    hasInitB decls = true ↔
      ((∃ d ∈ decls, d.role = some Role.init ∧ d.kind = DeclKind.kaction) ∨
        (∃ d ∈ decls, d.name = "init" ∧ d.kind = DeclKind.kaction)) := by
  simp only [hasInitB, Bool.or_eq_true, decide_eq_true_eq, hasExplicitInit_true_iff]
  refine or_congr ?_ Iff.rfl
  rw [gt_iff_lt, List.length_pos, ← List.isEmpty_eq_false]
  simp [initActions, List.isEmpty_eq_false_iff_exists_mem, List.mem_filter]

lemma hasStepB_true_iff (decls : List VisualDeclaration) :
    hasStepB decls = true ↔
      ((∃ d ∈ decls, d.role = some Role.step ∧ d.kind = DeclKind.kaction) ∨
        (∃ d ∈ decls, d.name = "step" ∧ d.kind = DeclKind.kaction)) := by
  simp only [hasStepB, Bool.or_eq_true, decide_eq_true_eq, hasExplicitStep_true_iff]
  refine or_congr ?_ Iff.rfl
  rw [gt_iff_lt, List.length_pos, ← List.isEmpty_eq_false]
  simp [stepActions, List.isEmpty_eq_false_iff_exists_mem, List.mem_filter]

/-- C7: a run is appended exactly when the collection has an initializer
(init-role action, or action named `init`) and a step (step-role action,
or action named `step`): with at least one invariant-role `val`/`def`
of non-empty name, the run is `invariantTest` asserting the and-joined
invariant names; otherwise it is `simulationTest` with no assertion. -/
theorem C7_run_synthesis :
    ∀ decls : List VisualDeclaration,
      (runExtra decls ≠ [] ↔
        (((∃ d ∈ decls, d.role = some Role.init ∧ d.kind = DeclKind.kaction) ∨
            (∃ d ∈ decls, d.name = "init" ∧ d.kind = DeclKind.kaction)) ∧
          ((∃ d ∈ decls, d.role = some Role.step ∧ d.kind = DeclKind.kaction) ∨
            (∃ d ∈ decls, d.name = "step" ∧ d.kind = DeclKind.kaction))))
      ∧ (((∃ d ∈ decls, d.role = some Role.init ∧ d.kind = DeclKind.kaction) ∨
            (∃ d ∈ decls, d.name = "init" ∧ d.kind = DeclKind.kaction)) →
          ((∃ d ∈ decls, d.role = some Role.step ∧ d.kind = DeclKind.kaction) ∨
            (∃ d ∈ decls, d.name = "step" ∧ d.kind = DeclKind.kaction)) →
          decls.filter isInvariantDecl ≠ [] →
          runExtra decls =
            ["  run invariantTest = init.then(20.reps(_ => step.expect(" ++
              String.intercalate " and "
                ((decls.filter isInvariantDecl).map (fun d => d.name)) ++ ")))"])
      ∧ (((∃ d ∈ decls, d.role = some Role.init ∧ d.kind = DeclKind.kaction) ∨
            (∃ d ∈ decls, d.name = "init" ∧ d.kind = DeclKind.kaction)) →
          ((∃ d ∈ decls, d.role = some Role.step ∧ d.kind = DeclKind.kaction) ∨
            (∃ d ∈ decls, d.name = "step" ∧ d.kind = DeclKind.kaction)) →
          decls.filter isInvariantDecl = [] →
          runExtra decls = ["  run simulationTest = init.then(20.reps(_ => step))"])
      ∧ generateCombinedActions decls =
          initExtra decls ++ stepExtra decls ++ runExtra decls := by
  intro decls
  refine ⟨?_, ?_, ?_, rfl⟩
  · constructor
    · intro h
      have hb : (hasInitB decls && hasStepB decls) = true := by
        by_contra hb
        rw [Bool.not_eq_true] at hb
        simp [runExtra, hb] at h
      rw [Bool.and_eq_true] at hb
      exact ⟨(hasInitB_true_iff decls).mp hb.1, (hasStepB_true_iff decls).mp hb.2⟩
    · rintro ⟨h1, h2⟩
      have hb : (hasInitB decls && hasStepB decls) = true := by
        rw [Bool.and_eq_true]
        exact ⟨(hasInitB_true_iff decls).mpr h1, (hasStepB_true_iff decls).mpr h2⟩
      by_cases hi : 0 < (decls.filter isInvariantDecl).length <;>
        simp [runExtra, hb, hi]
  · intro h1 h2 hinvne
    have hb1 : hasInitB decls = true := (hasInitB_true_iff decls).mpr h1
    have hb2 : hasStepB decls = true := (hasStepB_true_iff decls).mpr h2
    have hi : 0 < (decls.filter isInvariantDecl).length := by
      rw [List.length_pos]
      exact hinvne
    simp [runExtra, hb1, hb2, hi]
  · intro h1 h2 hinv
    have hb1 : hasInitB decls = true := (hasInitB_true_iff decls).mpr h1
    have hb2 : hasStepB decls = true := (hasStepB_true_iff decls).mpr h2
    simp [runExtra, hb1, hb2, hinv]

/-- An invariant-role value named `safe`. -/
def safeInv : VisualDeclaration :=
  { id := "3", kind := .kval, name := "safe", type := "", params := "",
    body := "true", role := some .invariant }

/-- A step-role action named `tick`. -/
def tickStep : VisualDeclaration :=
  { id := "2", kind := .kaction, name := "tick", type := "", params := "",
    body := "true", role := some .step }

/-- C7 witness: with init and step plus invariant `safe`, the run
asserts `safe`; without the invariant, the run has no assertion. -/
theorem C7_run_synthesis_witness :
    runExtra [bootDecl, tickStep, safeInv] =
      ["  run invariantTest = init.then(20.reps(_ => step.expect(safe)))"]
    ∧ runExtra [bootDecl, tickStep] =
      ["  run simulationTest = init.then(20.reps(_ => step))"] :=
  ⟨by
    exact ((C7_run_synthesis [bootDecl, tickStep, safeInv]).2.1
      (Or.inl ⟨bootDecl, by decide, by decide⟩)
      (Or.inl ⟨tickStep, by decide, by decide⟩) (by decide)),
   ((C7_run_synthesis [bootDecl, tickStep]).2.2.1
      (Or.inl ⟨bootDecl, by decide, by decide⟩)
      (Or.inl ⟨tickStep, by decide, by decide⟩) (by decide))⟩

lemma collectStep_nodup {seen : List (String × String)} {part : String}
    (h : (seen.map Prod.fst).Nodup) :
    ((collectStep seen part).map Prod.fst).Nodup := by
  simp only [collectStep]
  split
  · next hc =>
    rw [Bool.and_eq_true] at hc
    have h2 := hc.2
    simp only [Bool.not_eq_true', List.any_eq_false, beq_eq_false_iff_ne] at h2
    simp only [List.map_append, List.map_cons, List.map_nil]
    rw [List.nodup_append]
    refine ⟨h, List.nodup_singleton _, ?_⟩
    intro x hx hx2
    rw [List.mem_singleton] at hx2
    obtain ⟨q, hq, hqx⟩ := List.mem_map.mp hx
    exact h2 q hq (by simp [hqx.trans hx2])
  · exact h

lemma foldl_collectStep_nodup (parts : List String) :
    ∀ seen : List (String × String), (seen.map Prod.fst).Nodup →
      (((parts.foldl collectStep seen)).map Prod.fst).Nodup := by
  induction parts with
  | nil => intro seen h; exact h
  | cons p t ih =>
    intro seen h
    exact ih _ (collectStep_nodup h)

/-- C6: the collected step parameters are deduplicated by name (with
first-seen type and `int` default, exhibited concretely), the nondet
domains are boolean/string-sample/1..100 by type, and the claim's own
example synthesizes one `int` binding for `x` and an any-of calling
`a(x)` and `b(x)`. -/
theorem C6_step_param_collection :
    (∀ actions : List VisualDeclaration,
      ((collectUniqueParams actions).map Prod.fst).Nodup)
    ∧ (∀ t : String,
        (lowerStr t = "bool" → nondetRange t = "Set(true, false)") ∧
        (lowerStr t = "str" → nondetRange t = "Set(\"a\", \"b\", \"c\")") ∧
        (lowerStr t ≠ "bool" → lowerStr t ≠ "str" → nondetRange t = "1.to(100)"))
    ∧ collectUniqueParams
        [{ id := "1", kind := .kaction, name := "c", type := "", params := "y",
           body := "", role := some .step }] = [("y", "int")]
    ∧ collectUniqueParams
        (stepActions
          [{ id := "1", kind := .kaction, name := "a", type := "", params := "x: int",
             body := "", role := some .step },
           { id := "2", kind := .kaction, name := "b", type := "", params := "x: bool",
             body := "", role := some .step }]) = [("x", "int")]
    ∧ stepExtra
        [{ id := "1", kind := .kaction, name := "a", type := "", params := "x: int",
           body := "", role := some .step },
         { id := "2", kind := .kaction, name := "b", type := "", params := "x: bool",
           body := "", role := some .step }] =
        ["  action step = \x7b\n    nondet x = 1.to(100).oneOf()\n    any \x7b\n    a(x),\n    b(x),\n    \x7d\n  \x7d"] := by
  refine ⟨?_, ?_, by decide, by decide, by decide⟩
  · intro actions
    unfold collectUniqueParams
    have hone : ∀ (seen : List (String × String)) (a : VisualDeclaration),
        (seen.map Prod.fst).Nodup → ((collectAction seen a).map Prod.fst).Nodup := by
      intro seen a h
      unfold collectAction
      split
      · exact h
      · exact foldl_collectStep_nodup _ _ h
    have : ∀ (acts : List VisualDeclaration) (seen : List (String × String)),
        (seen.map Prod.fst).Nodup →
        ((acts.foldl collectAction seen).map Prod.fst).Nodup := by
      intro acts
      induction acts with
      | nil => intro seen h; exact h
      | cons a t ih =>
        intro seen h
        exact ih _ (hone seen a h)
    exact this actions [] (by decide)
  · intro t
    refine ⟨?_, ?_, ?_⟩
    · intro h
      simp [nondetRange, h]
    · intro h
      have hb : lowerStr t ≠ "bool" := by
        rw [h]
        decide
      simp [nondetRange, h, hb]
    · intro h1 h2
      simp [nondetRange, h1, h2]

/-- C6 witness: the nondet domain facts applied at concrete types. -/
theorem C6_step_param_collection_witness :
    nondetRange "Bool" = "Set(true, false)" ∧
    nondetRange "str" = "Set(\"a\", \"b\", \"c\")" ∧
    nondetRange "int" = "1.to(100)" :=
  ⟨(C6_step_param_collection.2.1 "Bool").1 (by decide),
   (C6_step_param_collection.2.1 "str").2.1 (by decide),
   (C6_step_param_collection.2.1 "int").2.2 (by decide) (by decide)⟩

/-- C4: body rendering for `action`/`def` declarations. A body (or its
`???` placeholder when empty) without a newline is emitted inline with
no block wrapper; a multi-line action body with no binding lines
(`nondet`/`val` markers) and not already wrapped in an `all`/`any`
block becomes an `all` conjunction block whose clauses are the
non-blank trimmed lines with a trailing comma appended when missing;
every other multi-line body is reindented one level inside a bare
block. -/
theorem C4_body_rendering :
    ∀ d : VisualDeclaration,
      (d.kind = DeclKind.kaction ∨ d.kind = DeclKind.kdef) →
      ((containsChar (Char.ofNat 10) (strOr d.body "???") = false →
        declToQuint d =
          "  " ++ (if d.pure && d.kind == DeclKind.kdef then "pure " else "") ++
            kindStr d.kind ++ " " ++ strOr d.name "_unnamed" ++
            (if d.params = "" then "" else "(" ++ d.params ++ ")") ++
            (if d.type = "" then "" else ": " ++ d.type) ++ " = " ++ strOr d.body "???")
      ∧ (containsChar (Char.ofNat 10) (strOr d.body "???") = true →
          d.kind = DeclKind.kaction →
          (∀ l ∈ splitChar (Char.ofNat 10) (strOr d.body "???"), isBindingLine l = false) →
          startsW "all " (trimStart (strOr d.body "???")) = false →
          startsW "any " (trimStart (strOr d.body "???")) = false →
          declToQuint d =
            "  action " ++ strOr d.name "_unnamed" ++
              (if d.params = "" then "" else "(" ++ d.params ++ ")") ++
              (if d.type = "" then "" else ": " ++ d.type) ++ " = all \x7b\n" ++
              String.intercalate "\n"
                ((((splitChar (Char.ofNat 10) (strOr d.body "???")).map jsTrim).filter
                    (fun l => l ≠ "")).map
                  (fun l => "    " ++ (if endsW "," l then l else l ++ ","))) ++
              "\n  \x7d")
      ∧ (containsChar (Char.ofNat 10) (strOr d.body "???") = true →
          (d.kind = DeclKind.kdef ∨
            (∃ l ∈ splitChar (Char.ofNat 10) (strOr d.body "???"), isBindingLine l = true) ∨
            startsW "all " (trimStart (strOr d.body "???")) = true ∨
            startsW "any " (trimStart (strOr d.body "???")) = true) →
          declToQuint d =
            "  " ++ (if d.pure && d.kind == DeclKind.kdef then "pure " else "") ++
              kindStr d.kind ++ " " ++ strOr d.name "_unnamed" ++
              (if d.params = "" then "" else "(" ++ d.params ++ ")") ++
              (if d.type = "" then "" else ": " ++ d.type) ++ " = \x7b\n" ++
              indentLines (strOr d.body "???") "    " ++ "\n  \x7d")) := by
  intro d hkind
  obtain ⟨i, k, nm, ty, pa, bo, ro, pu⟩ := d
  simp only at hkind ⊢
  refine ⟨?_, ?_, ?_⟩
  · intro hnl
    rcases hkind with hk | hk <;> subst hk <;>
      simp [declToQuint, hnl, kindStr]
  · intro hnl hk hnob hall hany
    subst hk
    have hb : ((splitChar (Char.ofNat 10) (strOr bo "???")).any isBindingLine) = false :=
      List.any_eq_false.mpr (by intro l hl; simp [hnob l hl])
    simp [declToQuint, hnl, hb, hall, hany, kindStr]
  · intro hnl hother
    rcases hkind with hk | hk <;> subst hk
    · rcases hother with hk | hex | hw | hw
      · exact absurd hk (by decide)
      · have hb : ((splitChar (Char.ofNat 10) (strOr bo "???")).any isBindingLine) = true := by
          rw [List.any_eq_true]
          obtain ⟨l, hl, hbl⟩ := hex
          exact ⟨l, hl, hbl⟩
        simp [declToQuint, hnl, hb, kindStr]
      · simp [declToQuint, hnl, hw, kindStr]
      · simp [declToQuint, hnl, hw, kindStr]
    · simp [declToQuint, hnl, kindStr]

/-- C4 witness: the three rendering modes at concrete declarations: a
single-line action body inline, a two-line action body as an `all`
block, and a two-line `def` body as a bare reindented block. -/
theorem C4_body_rendering_witness :
    declToQuint
      { id := "1", kind := .kaction, name := "go", type := "", params := "", body := "true" } =
      "  action go = true"
    ∧ declToQuint
      { id := "1", kind := .kaction, name := "go", type := "", params := "",
        body := "x > 0\ny > 0" } =
      "  action go = all \x7b\n    x > 0,\n    y > 0,\n  \x7d"
    ∧ declToQuint
      { id := "1", kind := .kdef, name := "go", type := "", params := "", body := "a\nb" } =
      "  def go = \x7b\n    a\n    b\n  \x7d" :=
  ⟨by
    exact ((C4_body_rendering _ (Or.inl rfl)).1 (by decide)),
   by
    exact ((C4_body_rendering _ (Or.inl rfl)).2.1 (by decide) rfl (by decide)
      (by decide) (by decide)),
   by
    exact ((C4_body_rendering _ (Or.inr rfl)).2.2 (by decide) (Or.inl rfl))⟩

/-- `GROUP_PADDING` from the store. -/
def GROUP_PADDING : Int := 15

/-- `GROUP_HEADER` from the store. -/
def GROUP_HEADER : Int := 30

/-- `GROUP_BUTTON_AREA` from the store. -/
def GROUP_BUTTON_AREA : Int := 40

/-- `COLLISION_PAD` from the store. -/
def COLLISION_PAD : Int := 10

/-- A React Flow node as used by `resizeGroups` and `resolveCollisions`:
its type string, optional parent id, position, optional measured
dimensions and optional style dimensions. Coordinates are modelled with
`Int`. -/
structure RFNode where
  id : String
  ntype : String
  parentId : Option String := none
  x : Int
  y : Int
  mWidth : Option Int := none
  mHeight : Option Int := none
  sWidth : Option Int := none
  sHeight : Option Int := none
deriving DecidableEq, Repr

/-- Default node for modelling JavaScript indexed array reads. -/
def dfltNode : RFNode :=
  { id := "", ntype := "", x := 0, y := 0 }

/-- The body of the `nodes.map` in `resizeGroups` for one node. The
source gathers children into a map keyed by group id and reads the
entry for the group node being mapped; that entry is exactly the nodes
whose `parentId` is this group's id. -/
def resizeOne (nodes : List RFNode) (node : RFNode) : RFNode :=
  if node.ntype = "role-group" then
    let children := nodes.filter (fun m => m.parentId == some node.id)
    if children.isEmpty then node
    else
      let maxRight := children.foldl (fun acc c => max acc (c.x + c.mWidth.getD 220)) 0
      let maxBottom := children.foldl (fun acc c => max acc (c.y + c.mHeight.getD 80)) 0
      let newWidth := maxRight + GROUP_PADDING
      let newHeight := maxBottom + GROUP_PADDING + GROUP_BUTTON_AREA
      if node.sWidth == some newWidth && node.sHeight == some newHeight then node
      else { node with sWidth := some newWidth, sHeight := some newHeight }
  else node

/-- `resizeGroups` from the store: recompute every group node's style
dimensions to fit its children. -/
def resizeGroups (nodes : List RFNode) : List RFNode :=
  let groups := nodes.filter (fun n => n.ntype == "role-group")
  if groups.isEmpty then nodes
  else nodes.map (resizeOne nodes)

/-- C9: `resizeGroups` maps every node through the per-node resize:
non-group nodes and childless groups are unchanged; a group with
children gets style dimensions equal to the maximum right/bottom child
extent plus the fixed padding (and the button-area allowance on the
height), and is returned unchanged exactly when those computed
dimensions already equal its current style dimensions. -/
theorem C9_group_autosize :
    ∀ nodes : List RFNode,
      resizeGroups nodes = nodes.map (resizeOne nodes)
      ∧ ∀ node : RFNode,
        (node.ntype ≠ "role-group" → resizeOne nodes node = node)
        ∧ (nodes.filter (fun m => m.parentId == some node.id) = [] →
            resizeOne nodes node = node)
        ∧ (node.ntype = "role-group" →
            nodes.filter (fun m => m.parentId == some node.id) ≠ [] →
            ((node.sWidth =
                some ((nodes.filter (fun m => m.parentId == some node.id)).foldl
                    (fun acc c => max acc (c.x + c.mWidth.getD 220)) 0 + 15) ∧
              node.sHeight =
                some ((nodes.filter (fun m => m.parentId == some node.id)).foldl
                    (fun acc c => max acc (c.y + c.mHeight.getD 80)) 0 + 15 + 40) →
                resizeOne nodes node = node)
            ∧ (¬(node.sWidth =
                  some ((nodes.filter (fun m => m.parentId == some node.id)).foldl
                      (fun acc c => max acc (c.x + c.mWidth.getD 220)) 0 + 15) ∧
                node.sHeight =
                  some ((nodes.filter (fun m => m.parentId == some node.id)).foldl
                      (fun acc c => max acc (c.y + c.mHeight.getD 80)) 0 + 15 + 40)) →
                resizeOne nodes node =
                  { node with
                    sWidth :=
                      some ((nodes.filter (fun m => m.parentId == some node.id)).foldl
                          (fun acc c => max acc (c.x + c.mWidth.getD 220)) 0 + 15),
                    sHeight :=
                      some ((nodes.filter (fun m => m.parentId == some node.id)).foldl
                          (fun acc c => max acc (c.y + c.mHeight.getD 80)) 0 + 15 + 40) }))) := by
  intro nodes
  constructor
  · simp only [resizeGroups]
    split
    · next hemp =>
      have hng : ∀ n ∈ nodes, ¬(n.ntype == "role-group") = true := by
        rw [List.isEmpty_iff, List.filter_eq_nil_iff] at hemp
        exact hemp
      have : ∀ n ∈ nodes, resizeOne nodes n = n := by
        intro n hn
        have : ¬ n.ntype = "role-group" := by
          have := hng n hn
          simpa using this
        simp [resizeOne, this]
      exact ((List.map_congr_left this).trans (List.map_id nodes)).symm
    · rfl
  · intro node
    refine ⟨?_, ?_, ?_⟩
    · intro h
      simp [resizeOne, h]
    · intro h
      by_cases hg : node.ntype = "role-group"
      · simp [resizeOne, hg, h]
      · simp [resizeOne, hg]
    · intro hg hch
      have hne : ((nodes.filter (fun m => m.parentId == some node.id)).isEmpty) = false := by
        rw [List.isEmpty_eq_false]
        exact hch
      constructor
      · intro heq
        have hbeq : (node.sWidth ==
            some ((nodes.filter (fun m => m.parentId == some node.id)).foldl
                (fun acc c => max acc (c.x + c.mWidth.getD 220)) 0 + GROUP_PADDING) &&
          node.sHeight ==
            some ((nodes.filter (fun m => m.parentId == some node.id)).foldl
                (fun acc c => max acc (c.y + c.mHeight.getD 80)) 0 + GROUP_PADDING +
                  GROUP_BUTTON_AREA)) = true := by
          rw [Bool.and_eq_true, beq_iff_eq, beq_iff_eq]
          exact heq
        simp only [resizeOne, hg, hne, hbeq]
        simp [GROUP_PADDING, GROUP_BUTTON_AREA]
      · intro hne2
        have hbeq : (node.sWidth ==
            some ((nodes.filter (fun m => m.parentId == some node.id)).foldl
                (fun acc c => max acc (c.x + c.mWidth.getD 220)) 0 + GROUP_PADDING) &&
          node.sHeight ==
            some ((nodes.filter (fun m => m.parentId == some node.id)).foldl
                (fun acc c => max acc (c.y + c.mHeight.getD 80)) 0 + GROUP_PADDING +
                  GROUP_BUTTON_AREA)) = false := by
          rw [Bool.and_eq_false_iff]
          rcases not_and_or.mp hne2 with h | h
          · exact Or.inl (by rwa [beq_eq_false_iff_ne])
          · exact Or.inr (by rwa [beq_eq_false_iff_ne])
        simp only [resizeOne, hg, hne, hbeq]
        simp [GROUP_PADDING, GROUP_BUTTON_AREA]

/-- C9 witness: a group with one child at (20, 50) measured 100 by 30
resizes to width 135 and height 135; a non-group node is unchanged. -/
theorem C9_group_autosize_witness :
    resizeOne
      [{ id := "g", ntype := "role-group", x := 0, y := 0, sWidth := some 1, sHeight := some 1 },
       { id := "c", ntype := "action", parentId := some "g", x := 20, y := 50,
         mWidth := some 100, mHeight := some 30 }]
      { id := "g", ntype := "role-group", x := 0, y := 0, sWidth := some 1, sHeight := some 1 } =
      { id := "g", ntype := "role-group", x := 0, y := 0, sWidth := some 135, sHeight := some 135 }
    ∧ resizeOne
      [{ id := "c", ntype := "action", x := 3, y := 4 }]
      { id := "c", ntype := "action", x := 3, y := 4 } =
      { id := "c", ntype := "action", x := 3, y := 4 } := by
  constructor
  · exact ((C9_group_autosize _).2 _).2.2 rfl (by decide) |>.2 (by decide)
  · exact ((C9_group_autosize _).2 _).1 (by decide)

/-- The grouping key of a node in `resolveCollisions`
(`nodes[i].parentId ?? \'\'`). -/
def nodeKey (n : RFNode) : String := n.parentId.getD ""

/-- First-occurrence deduplication, matching the iteration order of the
JavaScript `Map` built in `resolveCollisions`. -/
def dedupKeysAux : List String → List String → List String
  | _, [] => []
  | seen, k :: t =>
    if k ∈ seen then dedupKeysAux seen t
    else k :: dedupKeysAux (k :: seen) t

/-- The parent keys of the node list, in first-occurrence order. -/
def parentKeys (nodes : List RFNode) : List String :=
  dedupKeysAux [] (nodes.map nodeKey)

/-- Indices (into the original node list) of the nodes grouped under
one parent key. -/
def idxsFor (nodes : List RFNode) (key : String) : List Nat :=
  (List.range nodes.length).filter (fun i => nodeKey (nodes.getD i dfltNode) == key)

/-- The ordered index pairs visited by the double loop
`for i ...; for j = i+1 ...`. -/
def orderedPairs : List Nat → List (Nat × Nat)
  | [] => []
  | x :: rest => rest.map (fun y => (x, y)) ++ orderedPairs rest

/-- One pair check of `resolveCollisions`: if at least one of the two
nodes is being moved and their padded boxes overlap, displace the
stopped node (the moved one; the second of the pair when both are
moved) flush against the blocker on the smaller-overlap axis. Returns
the updated list and whether a displacement happened. -/
def pairUpdate (moved : List String) (out : List RFNode) (i j : Nat) :
    List RFNode × Bool :=
  let a := out.getD i dfltNode
  let b := out.getD j dfltNode
  let aM := moved.contains a.id
  let bM := moved.contains b.id
  if !aM && !bM then (out, false)
  else
    let aw := a.mWidth.getD 200 + COLLISION_PAD
    let ah := a.mHeight.getD 80 + COLLISION_PAD
    let bw := b.mWidth.getD 200 + COLLISION_PAD
    let bh := b.mHeight.getD 80 + COLLISION_PAD
    let ox := min (a.x + aw) (b.x + bw) - max a.x b.x
    let oy := min (a.y + ah) (b.y + bh) - max a.y b.y
    if ox ≤ 0 ∨ oy ≤ 0 then (out, false)
    else
      let si := if aM && !bM then i else if bM && !aM then j else j
      let bi := if aM && !bM then j else if bM && !aM then i else i
      let blocker := out.getD bi dfltNode
      let stopped := out.getD si dfltNode
      let blockerPadW := blocker.mWidth.getD 200 + COLLISION_PAD
      let blockerPadH := blocker.mHeight.getD 80 + COLLISION_PAD
      let stoppedPadW := stopped.mWidth.getD 200 + COLLISION_PAD
      let stoppedPadH := stopped.mHeight.getD 80 + COLLISION_PAD
      if ox < oy then
        if stopped.x ≥ blocker.x then
          (out.set si { stopped with x := blocker.x + blockerPadW }, true)
        else
          (out.set si { stopped with x := blocker.x - stoppedPadW }, true)
      else
        if stopped.y ≥ blocker.y then
          (out.set si { stopped with y := blocker.y + blockerPadH }, true)
        else
          (out.set si { stopped with y := blocker.y - stoppedPadH }, true)

/-- One full pass over a sibling group's pairs. The second component is
the `settled` flag: `true` when no pair displaced anything. -/
def onePass (moved : List String) (idxs : List Nat) (out : List RFNode) :
    List RFNode × Bool :=
  (orderedPairs idxs).foldl
    (fun acc p =>
      let r := pairUpdate moved acc.1 p.1 p.2
      (r.1, acc.2 && !r.2))
    (out, true)

/-- The bounded pass loop (`for pass = 0..2`, breaking once settled). -/
def passLoop (moved : List String) (idxs : List Nat) : Nat → List RFNode → List RFNode
  | 0, out => out
  | n + 1, out =>
    let r := onePass moved idxs out
    if r.2 then r.1 else passLoop moved idxs n r.1

/-- `resolveCollisions` from the store: group nodes by parent and, for
each group of at least two siblings, run up to three passes. -/
def resolveCollisions (nodes : List RFNode) (moved : List String) : List RFNode :=
  if moved.isEmpty then nodes
  else
    (parentKeys nodes).foldl
      (fun out key =>
        let idxs := idxsFor nodes key
        if idxs.length < 2 then out else passLoop moved idxs 3 out)
      nodes

/-- Invariant carried through collision resolution: same length, same
ids positionwise, and nodes whose id is not in the moved set are
untouched. -/
def presNM (nodes : List RFNode) (moved : List String) (out : List RFNode) : Prop :=
  out.length = nodes.length ∧
  ∀ i : Nat,
    (out.getD i dfltNode).id = (nodes.getD i dfltNode).id ∧
    ((nodes.getD i dfltNode).id ∉ moved → out.getD i dfltNode = nodes.getD i dfltNode)

lemma getD_set_general (l : List RFNode) (n : Nat) (a : RFNode) (m : Nat) :
    (l.set n a).getD m dfltNode =
      if n = m ∧ n < l.length then a else l.getD m dfltNode := by
  rw [List.getD_eq_getElem?_getD, List.getD_eq_getElem?_getD, List.getElem?_set]
  by_cases h1 : n = m
  · subst h1
    by_cases h2 : n < l.length
    · simp [h2]
    · simp [h2, List.getElem?_eq_none (Nat.le_of_not_lt h2)]
  · simp [h1]

lemma presNM_refl (nodes : List RFNode) (moved : List String) :
    presNM nodes moved nodes :=
  ⟨rfl, fun _ => ⟨rfl, fun _ => rfl⟩⟩

lemma presNM_set {nodes : List RFNode} {moved : List String} {out : List RFNode}
    (h : presNM nodes moved out) (si : Nat) (s : RFNode)
    (hid : s.id = (out.getD si dfltNode).id)
    (hm : (out.getD si dfltNode).id ∈ moved) :
    presNM nodes moved (out.set si s) := by
  obtain ⟨hlen, hp⟩ := h
  refine ⟨by simpa using hlen, ?_⟩
  intro m
  rw [getD_set_general]
  by_cases hc : si = m ∧ si < out.length
  · obtain ⟨rfl, hlt⟩ := hc
    rw [if_pos ⟨rfl, hlt⟩]
    constructor
    · rw [hid]
      exact (hp si).1
    · intro hnm
      rw [(hp si).1] at hm
      exact absurd hm hnm
  · rw [if_neg hc]
    exact hp m

lemma pairUpdate_fst_cases (moved : List String) (out : List RFNode) (i j : Nat) :
    (pairUpdate moved out i j).1 = out ∨
    ∃ (si : Nat) (s : RFNode),
      (pairUpdate moved out i j).1 = out.set si s ∧
      s.id = (out.getD si dfltNode).id ∧
      (out.getD si dfltNode).id ∈ moved := by
  simp only [pairUpdate]
  by_cases haM : moved.contains (out.getD i dfltNode).id <;>
    by_cases hbM : moved.contains (out.getD j dfltNode).id <;>
    simp only [haM, hbM, Bool.not_true, Bool.not_false, Bool.and_self, Bool.and_true,
      Bool.and_false, Bool.true_and, Bool.false_and, Bool.false_eq_true,
      Bool.true_eq_false, eq_self_iff_true, if_true, if_false]
  · split
    · exact Or.inl (by first | rfl | trivial)
    · split <;> split <;>
        exact Or.inr ⟨j, _, rfl, rfl, List.elem_iff.mp hbM⟩
  · split
    · exact Or.inl (by first | rfl | trivial)
    · split <;> split <;>
        exact Or.inr ⟨i, _, rfl, rfl, List.elem_iff.mp haM⟩
  · split
    · exact Or.inl (by first | rfl | trivial)
    · split <;> split <;>
        exact Or.inr ⟨j, _, rfl, rfl, List.elem_iff.mp hbM⟩
  · exact Or.inl (by first | rfl | trivial)

lemma pairUpdate_pres {nodes : List RFNode} {moved : List String} {out : List RFNode}
    (h : presNM nodes moved out) (i j : Nat) :
    presNM nodes moved (pairUpdate moved out i j).1 := by
  rcases pairUpdate_fst_cases moved out i j with he | ⟨si, s, he, hid, hm⟩
  · rw [he]
    exact h
  · rw [he]
    exact presNM_set h si s hid hm

lemma onePass_pres {nodes : List RFNode} {moved : List String} {out : List RFNode}
    (h : presNM nodes moved out) (idxs : List Nat) :
    presNM nodes moved (onePass moved idxs out).1 := by
  have H : ∀ (ps : List (Nat × Nat)) (acc : List RFNode × Bool),
      presNM nodes moved acc.1 →
      presNM nodes moved
        ((ps.foldl
          (fun acc p =>
            let r := pairUpdate moved acc.1 p.1 p.2
            (r.1, acc.2 && !r.2))
          acc).1) := by
    intro ps
    induction ps with
    | nil => intro acc hacc; exact hacc
    | cons p t ih =>
      intro acc hacc
      exact ih _ (pairUpdate_pres hacc p.1 p.2)
  exact H (orderedPairs idxs) (out, true) h

lemma passLoop_pres {nodes : List RFNode} {moved : List String} (idxs : List Nat) :
    ∀ (fuel : Nat) (out : List RFNode), presNM nodes moved out →
      presNM nodes moved (passLoop moved idxs fuel out) := by
  intro fuel
  induction fuel with
  | zero => intro out h; exact h
  | succ m ih =>
    intro out h
    simp only [passLoop]
    split
    · exact onePass_pres h idxs
    · exact ih _ (onePass_pres h idxs)

lemma resolveCollisions_pres (nodes : List RFNode) (moved : List String) :
    presNM nodes moved (resolveCollisions nodes moved) := by
  unfold resolveCollisions
  split
  · exact presNM_refl nodes moved
  · have H : ∀ (ks : List String) (out : List RFNode), presNM nodes moved out →
        presNM nodes moved
          (ks.foldl
            (fun out key =>
              let idxs := idxsFor nodes key
              if idxs.length < 2 then out else passLoop moved idxs 3 out)
            out) := by
      intro ks
      induction ks with
      | nil => intro out h; exact h
      | cons k t ih =>
        intro out h
        refine ih _ ?_
        simp only
        split
        · exact h
        · exact passLoop_pres _ 3 out h
    exact H (parentKeys nodes) nodes (presNM_refl nodes moved)

lemma passLoop_iterate (moved : List String) (idxs : List Nat) :
    ∀ (fuel : Nat) (out : List RFNode),
      ∃ n ≤ fuel, passLoop moved idxs fuel out =
        (fun o => (onePass moved idxs o).1)^[n] out := by
  intro fuel
  induction fuel with
  | zero => intro out; exact ⟨0, Nat.le_refl 0, rfl⟩
  | succ m ih =>
    intro out
    simp only [passLoop]
    split
    · next hs =>
      refine ⟨1, by omega, ?_⟩
      simp [Function.iterate_one]
    · obtain ⟨n, hn, he⟩ := ih ((onePass moved idxs out).1)
      refine ⟨n + 1, by omega, ?_⟩
      rw [Function.iterate_succ_apply]
      exact he

/-- Stationary sibling used in the collision example. -/
def colA : RFNode :=
  { id := "A", ntype := "action", x := 0, y := 0, mWidth := some 100, mHeight := some 40 }

/-- Moving sibling used in the collision example. -/
def colB : RFNode :=
  { id := "B", ntype := "action", x := 90, y := 10, mWidth := some 100, mHeight := some 40 }

/-- C8: collision resolution never displaces a node whose id is not in
the moved set (ids and length are preserved); a colliding sibling pair
displaces only a moved node, along the smaller-overlap axis, flush
against the blocking node's padded edge, pushing toward the side the
stopped node already lies on ("after" on exact ties, via the `≥`
comparison), with the other coordinate unchanged; each sibling group
runs at most 3 passes; and in the concrete horizontal-overlap example
the moving node's x is shifted exactly to the blocker's padded edge
while y stays unchanged. -/
theorem C8_collision_resolution :
    (∀ (nodes : List RFNode) (moved : List String),
      (resolveCollisions nodes moved).length = nodes.length ∧
      ∀ i : Nat,
        ((resolveCollisions nodes moved).getD i dfltNode).id =
          (nodes.getD i dfltNode).id ∧
        ((nodes.getD i dfltNode).id ∉ moved →
          (resolveCollisions nodes moved).getD i dfltNode = nodes.getD i dfltNode))
    ∧ (∀ (moved : List String) (a b : RFNode),
        moved.contains a.id = false → moved.contains b.id = false →
        (pairUpdate moved [a, b] 0 1).1 = [a, b])
    ∧ (∀ (moved : List String) (a b : RFNode),
        moved.contains a.id = true → moved.contains b.id = false →
        0 < min (a.x + (a.mWidth.getD 200 + COLLISION_PAD))
              (b.x + (b.mWidth.getD 200 + COLLISION_PAD)) - max a.x b.x →
        0 < min (a.y + (a.mHeight.getD 80 + COLLISION_PAD))
              (b.y + (b.mHeight.getD 80 + COLLISION_PAD)) - max a.y b.y →
        ((min (a.x + (a.mWidth.getD 200 + COLLISION_PAD))
              (b.x + (b.mWidth.getD 200 + COLLISION_PAD)) - max a.x b.x <
            min (a.y + (a.mHeight.getD 80 + COLLISION_PAD))
              (b.y + (b.mHeight.getD 80 + COLLISION_PAD)) - max a.y b.y →
          (pairUpdate moved [a, b] 0 1).1 =
            [{ a with x := if a.x ≥ b.x then b.x + (b.mWidth.getD 200 + COLLISION_PAD)
                else b.x - (a.mWidth.getD 200 + COLLISION_PAD) }, b])
        ∧ (min (a.y + (a.mHeight.getD 80 + COLLISION_PAD))
              (b.y + (b.mHeight.getD 80 + COLLISION_PAD)) - max a.y b.y ≤
            min (a.x + (a.mWidth.getD 200 + COLLISION_PAD))
              (b.x + (b.mWidth.getD 200 + COLLISION_PAD)) - max a.x b.x →
          (pairUpdate moved [a, b] 0 1).1 =
            [{ a with y := if a.y ≥ b.y then b.y + (b.mHeight.getD 80 + COLLISION_PAD)
                else b.y - (a.mHeight.getD 80 + COLLISION_PAD) }, b])))
    ∧ (∀ (moved : List String) (a b : RFNode),
        moved.contains b.id = true → moved.contains a.id = false →
        0 < min (a.x + (a.mWidth.getD 200 + COLLISION_PAD))
              (b.x + (b.mWidth.getD 200 + COLLISION_PAD)) - max a.x b.x →
        0 < min (a.y + (a.mHeight.getD 80 + COLLISION_PAD))
              (b.y + (b.mHeight.getD 80 + COLLISION_PAD)) - max a.y b.y →
        ((min (a.x + (a.mWidth.getD 200 + COLLISION_PAD))
              (b.x + (b.mWidth.getD 200 + COLLISION_PAD)) - max a.x b.x <
            min (a.y + (a.mHeight.getD 80 + COLLISION_PAD))
              (b.y + (b.mHeight.getD 80 + COLLISION_PAD)) - max a.y b.y →
          (pairUpdate moved [a, b] 0 1).1 =
            [a, { b with x := if b.x ≥ a.x then a.x + (a.mWidth.getD 200 + COLLISION_PAD)
                else a.x - (b.mWidth.getD 200 + COLLISION_PAD) }])
        ∧ (min (a.y + (a.mHeight.getD 80 + COLLISION_PAD))
              (b.y + (b.mHeight.getD 80 + COLLISION_PAD)) - max a.y b.y ≤
            min (a.x + (a.mWidth.getD 200 + COLLISION_PAD))
              (b.x + (b.mWidth.getD 200 + COLLISION_PAD)) - max a.x b.x →
          (pairUpdate moved [a, b] 0 1).1 =
            [a, { b with y := if b.y ≥ a.y then a.y + (a.mHeight.getD 80 + COLLISION_PAD)
                else a.y - (b.mHeight.getD 80 + COLLISION_PAD) }])))
    ∧ (∀ (moved : List String) (a b : RFNode),
        moved.contains a.id = true → moved.contains b.id = true →
        0 < min (a.x + (a.mWidth.getD 200 + COLLISION_PAD))
              (b.x + (b.mWidth.getD 200 + COLLISION_PAD)) - max a.x b.x →
        0 < min (a.y + (a.mHeight.getD 80 + COLLISION_PAD))
              (b.y + (b.mHeight.getD 80 + COLLISION_PAD)) - max a.y b.y →
        (min (a.x + (a.mWidth.getD 200 + COLLISION_PAD))
              (b.x + (b.mWidth.getD 200 + COLLISION_PAD)) - max a.x b.x <
            min (a.y + (a.mHeight.getD 80 + COLLISION_PAD))
              (b.y + (b.mHeight.getD 80 + COLLISION_PAD)) - max a.y b.y →
          (pairUpdate moved [a, b] 0 1).1 =
            [a, { b with x := if b.x ≥ a.x then a.x + (a.mWidth.getD 200 + COLLISION_PAD)
                else a.x - (b.mWidth.getD 200 + COLLISION_PAD) }]))
    ∧ (∀ (moved : List String) (idxs : List Nat) (out : List RFNode),
        ∃ n ≤ 3, passLoop moved idxs 3 out =
          (fun o => (onePass moved idxs o).1)^[n] out)
    ∧ resolveCollisions [colA, colB] ["B"] = [colA, { colB with x := 110 }] := by
  refine ⟨?_, ?_, ?_, ?_, ?_, ?_, by decide⟩
  · intro nodes moved
    exact resolveCollisions_pres nodes moved
  · intro moved a b hA hB
    have hA2 : a.id ∉ moved := by simpa using hA
    have hB2 : b.id ∉ moved := by simpa using hB
    simp [pairUpdate, hA2, hB2]
  · intro moved a b hA hB hox hoy
    constructor
    · intro hlt
      simp only [pairUpdate, List.getD_cons_zero, List.getD_cons_succ, hA, hB,
        Bool.not_true, Bool.not_false, Bool.and_false, Bool.and_true, Bool.true_and,
        Bool.false_and, Bool.and_self, Bool.false_eq_true, Bool.true_eq_false,
        eq_self_iff_true, if_true, if_false]
      rw [if_neg (by rintro (h | h) <;> omega), if_pos hlt]
      split <;> rfl
    · intro hge
      simp only [pairUpdate, List.getD_cons_zero, List.getD_cons_succ, hA, hB,
        Bool.not_true, Bool.not_false, Bool.and_false, Bool.and_true, Bool.true_and,
        Bool.false_and, Bool.and_self, Bool.false_eq_true, Bool.true_eq_false,
        eq_self_iff_true, if_true, if_false]
      rw [if_neg (by rintro (h | h) <;> omega), if_neg (by omega)]
      split <;> rfl
  · intro moved a b hB hA hox hoy
    constructor
    · intro hlt
      simp only [pairUpdate, List.getD_cons_zero, List.getD_cons_succ, hA, hB,
        Bool.not_true, Bool.not_false, Bool.and_false, Bool.and_true, Bool.true_and,
        Bool.false_and, Bool.and_self, Bool.false_eq_true, Bool.true_eq_false,
        eq_self_iff_true, if_true, if_false]
      rw [if_neg (by rintro (h | h) <;> omega), if_pos hlt]
      split <;> rfl
    · intro hge
      simp only [pairUpdate, List.getD_cons_zero, List.getD_cons_succ, hA, hB,
        Bool.not_true, Bool.not_false, Bool.and_false, Bool.and_true, Bool.true_and,
        Bool.false_and, Bool.and_self, Bool.false_eq_true, Bool.true_eq_false,
        eq_self_iff_true, if_true, if_false]
      rw [if_neg (by rintro (h | h) <;> omega), if_neg (by omega)]
      split <;> rfl
  · intro moved a b hA hB hox hoy hlt
    simp only [pairUpdate, List.getD_cons_zero, List.getD_cons_succ, hA, hB,
      Bool.not_true, Bool.not_false, Bool.and_false, Bool.and_true, Bool.true_and,
      Bool.false_and, Bool.and_self, Bool.false_eq_true, Bool.true_eq_false,
      eq_self_iff_true, if_true, if_false]
    rw [if_neg (by rintro (h | h) <;> omega), if_pos hlt]
    split <;> rfl
  · intro moved idxs out
    exact passLoop_iterate moved idxs 3 out

/-- C8 witness: the pair-level displacement applied at the concrete
horizontal-overlap example, and the non-moved node of that example
untouched end to end. -/
theorem C8_collision_resolution_witness :
    (pairUpdate ["B"] [colA, colB] 0 1).1 = [colA, { colB with x := 110 }]
    ∧ (resolveCollisions [colA, colB] ["B"]).getD 0 dfltNode = colA :=
  ⟨by
    exact ((C8_collision_resolution.2.2.2.1 ["B"] colA colB (by decide) (by decide)
      (by decide) (by decide)).1 (by decide)),
   ((C8_collision_resolution.1 [colA, colB] ["B"]).2 0).2 (by decide)⟩

/-- The store state relevant to undo/redo: the live snapshot (`nodes`,
`edges`, `moduleName` are bundled as one abstract snapshot value), the
history stack, and the current index. -/
structure HistoryState (σ : Type) where
  current : σ
  history : List σ
  historyIndex : Int
deriving DecidableEq, Repr

/-- `pushHistory` from the store: keep the stack up to the current
index, append a snapshot of the live state, evict the oldest entry when
the cap of 50 is exceeded, and point the index at the new last entry.
JavaScript `slice(0, historyIndex + 1)` clamps a negative end to 0,
which `Int.toNat` models. -/
def pushHistory {σ : Type} (s : HistoryState σ) : HistoryState σ :=
  let newHistory := (s.history.take (s.historyIndex + 1).toNat) ++ [s.current]
  let newHistory2 := if newHistory.length > 50 then newHistory.drop 1 else newHistory
  { s with history := newHistory2, historyIndex := (newHistory2.length : Int) - 1 }

/-- `undo` from the store. -/
def undo {σ : Type} [Inhabited σ] (s : HistoryState σ) : HistoryState σ :=
  if s.historyIndex ≤ 0 then s
  else
    { s with
      current := s.history.getD (s.historyIndex - 1).toNat default,
      historyIndex := s.historyIndex - 1 }

/-- `redo` from the store. -/
def redo {σ : Type} [Inhabited σ] (s : HistoryState σ) : HistoryState σ :=
  if s.historyIndex ≥ (s.history.length : Int) - 1 then s
  else
    { s with
      current := s.history.getD (s.historyIndex + 1).toNat default,
      historyIndex := s.historyIndex + 1 }

/-- The operations a user session can interleave: history operations
plus arbitrary edits of the live state. -/
inductive HistOp (σ : Type) where
  | push
  | undo
  | redo
  | edit (v : σ)

/-- One operation applied to the store state. -/
def histStep {σ : Type} [Inhabited σ] (s : HistoryState σ) : HistOp σ → HistoryState σ
  | .push => pushHistory s
  | .undo => undo s
  | .redo => redo s
  | .edit v => { s with current := v }

/-- A session: the store starts with empty history and index `-1`. -/
def runHist {σ : Type} [Inhabited σ] (c0 : σ) (ops : List (HistOp σ)) : HistoryState σ :=
  ops.foldl histStep { current := c0, history := [], historyIndex := -1 }

lemma pushHistory_len {σ : Type} (s : HistoryState σ)
    (h : s.history.length ≤ 50) : (pushHistory s).history.length ≤ 50 := by
  simp only [pushHistory]
  split
  · simp only [List.length_drop, List.length_append, List.length_cons, List.length_nil,
      List.length_take]
    omega
  · next hle =>
    simp only [List.length_append, List.length_cons, List.length_nil, List.length_take] at hle ⊢
    omega

lemma histStep_len {σ : Type} [Inhabited σ] (s : HistoryState σ) (op : HistOp σ)
    (h : s.history.length ≤ 50) : (histStep s op).history.length ≤ 50 := by
  cases op with
  | push => exact pushHistory_len s h
  | undo =>
    simp only [histStep, undo]
    split <;> simpa
  | redo =>
    simp only [histStep, redo]
    split <;> simpa
  | edit v => simpa

/-- C10: over any sequence of history operations the snapshot stack
holds at most 50 entries; `pushHistory` truncates the redo tail (the
entries past the current index), appends the live snapshot, evicts the
oldest entry exactly when the cap would be exceeded, and leaves the
index on the newly pushed last entry. -/
theorem C10_history_bounded {σ : Type} [Inhabited σ] :
    (∀ (c0 : σ) (ops : List (HistOp σ)), (runHist c0 ops).history.length ≤ 50)
    ∧ (∀ s : HistoryState σ,
        (pushHistory s).historyIndex = ((pushHistory s).history.length : Int) - 1
        ∧ (pushHistory s).history =
          (if (s.history.take (s.historyIndex + 1).toNat).length + 1 > 50
           then ((s.history.take (s.historyIndex + 1).toNat) ++ [s.current]).drop 1
           else (s.history.take (s.historyIndex + 1).toNat) ++ [s.current]))
    ∧ (∀ s : HistoryState σ, s.history.length ≤ 50 →
        (pushHistory s).history.length ≤ 50) := by
  refine ⟨?_, ?_, fun s h => pushHistory_len s h⟩
  · intro c0 ops
    have H : ∀ (l : List (HistOp σ)) (s : HistoryState σ), s.history.length ≤ 50 →
        (l.foldl histStep s).history.length ≤ 50 := by
      intro l
      induction l with
      | nil => intro s h; exact h
      | cons op t ih =>
        intro s h
        exact ih _ (histStep_len s op h)
    exact H ops _ (by simp)
  · intro s
    constructor
    · rfl
    · simp only [pushHistory, List.length_append, List.length_cons, List.length_nil]

/-- A full 50-entry history stack with the index on its last entry. -/
def fullStack : HistoryState Nat :=
  { current := 7, history := List.replicate 50 1, historyIndex := 49 }

/-- C10 witness: pushing once from the initial state yields a
single-entry stack with the index on it; a push from a full stack of 50
with the index at the end evicts the oldest entry. -/
theorem C10_history_bounded_witness :
    runHist (0 : Nat) [HistOp.push] =
      { current := 0, history := [0], historyIndex := 0 }
    ∧ (pushHistory fullStack).history = (List.replicate 50 (1 : Nat) ++ [7]).drop 1
    ∧ (pushHistory fullStack).history.length ≤ 50 := by
  refine ⟨by decide, ?_, ?_⟩
  · have h := (C10_history_bounded.2.1 fullStack).2
    rw [h]
    decide
  · exact C10_history_bounded.2.2 fullStack (by decide)

end QuintWhiteboard
